import Mathlib

/-!
Verification development for the Aocla interpreter (`src/aocla.c`).

The C source is shallowly embedded as executable Lean definitions:

* C machine integers are modelled as unbounded `Int` (the spec only asks for
  "native signed integers, at least 32 bits"; no claim depends on wrap-around).
* C byte strings are modelled as `List Char` restricted to byte-sized
  characters; `'\x00'` plays the role of the NUL terminator when the C code
  peeks one byte past a token.
* Reference counting (`retain`/`release`/`getUnsharedObject`) manages sharing
  of heap nodes and is unobservable at the level of values, so the embedding
  works with plain immutable values; `release` and `retain` become no-ops and
  the unshared-copy gate becomes the identity at the value level.
* The error-message strings produced by `setError` are outside every claim and
  are not modelled; a C return code of 1 is modelled as the boolean `true`.
* Unbounded loops (the parser's recursion and `eval`'s procedure calls and
  `while`) are driven by an explicit fuel parameter; running out of fuel is a
  distinguished outcome (`ParseOut.out`, respectively `Option.none`) so it can
  never be confused with a genuine parse or runtime error.
* C undefined behaviour (reads of uninitialized locals, division by zero,
  failed `assert`) is modelled as `none` (stuck).
* Source line annotations (`obj.line`, `curline`) feed only the error traces
  and are ignored by every claim, so they are not carried by the model.
-/

namespace Aocla

/-- Aocla object (`obj` in aocla.c): a tagged value that is an integer, a
boolean, a list, a tuple, a mutable string, or a symbol.  Lists/tuples and
symbols carry the `quoted` flag of the C union fields. -/
inductive Obj where
  | int (i : Int)
  | bool (istrue : Bool)
  | list (ele : List Obj) (quoted : Bool)
  | tuple (ele : List Obj) (quoted : Bool)
  | str (ptr : List Char)
  | sym (ptr : List Char) (quoted : Bool)

/-- Character class of C `isalpha` in the default locale. -/
def isalpha (c : Char) : Bool :=
  ('a' ≤ c && c ≤ 'z') || ('A' ≤ c && c ≤ 'Z')

/-- Character class of C `isdigit`. -/
def isdigit (c : Char) : Bool :=
  '0' ≤ c && c ≤ '9'

/-- Character class of C `isspace`. -/
def isspace (c : Char) : Bool :=
  c = ' ' || c = '\t' || c = '\n' || c = '\x0b' || c = '\x0c' || c = '\r'

/-- The Aocla symbol character set (`issymbol` in aocla.c). -/
def issymbol (c : Char) : Bool :=
  isalpha c || c = '@' || c = '$' || c = '+' || c = '-' || c = '*' ||
  c = '/' || c = '=' || c = '?' || c = '%' || c = '>' || c = '<' ||
  c = '_' || c = '\''

/-- Reading `s[i]` on a NUL-terminated C string: past the end we read the
terminator `'\x00'`. -/
def peek (s : List Char) (i : Nat) : Char :=
  (s.get? i).getD '\x00'

/-- Value of a digit run, most significant first. -/
def digitsVal (cs : List Char) : Int :=
  cs.foldl (fun acc c => acc * 10 + ((c.toNat : Int) - ('0'.toNat : Int))) 0

/-- C `atoi`: skip whitespace, read one optional sign, then a digit run,
ignoring everything after the first non-digit. -/
def atoi (cs : List Char) : Int :=
  let cs := cs.dropWhile isspace
  match cs with
  | '-' :: rest => - digitsVal (rest.takeWhile isdigit)
  | '+' :: rest => digitsVal (rest.takeWhile isdigit)
  | _ => digitsVal (cs.takeWhile isdigit)

/-- Fuel-driven body of `parserConsumeSpace`: consume whitespace, then a
`//` comment up to (not including) the newline, and repeat.  Every comment
round consumes at least two characters, so the fuel used by the wrapper below
is always sufficient. -/
def parserConsumeSpaceFuel : Nat → List Char → List Char
  | 0, s => s
  | fuel + 1, s =>
    let s1 := s.dropWhile isspace
    match s1 with
    | '/' :: '/' :: rest =>
      parserConsumeSpaceFuel fuel (rest.dropWhile (fun c => c ≠ '\n'))
    | _ => s1

/-- `parserConsumeSpace` from aocla.c (the line counter feeds only the
unmodelled line annotations). -/
def parserConsumeSpace (s : List Char) : List Char :=
  parserConsumeSpaceFuel (s.length + 1) s

/-- Result of the parser: a parsed object with the unconsumed input, a syntax
error (C returns `NULL` and sets an error string), or fuel exhaustion (an
artifact of the embedding, never a C behaviour). -/
inductive ParseOut where
  | ok (o : Obj) (rest : List Char)
  | err
  | out

/-- String-literal body scan of `parseObject`: read bytes up to the closing
quote, mapping `\n`, `\r`, `\t` escapes and taking any other escaped byte
literally.  A missing terminator is a syntax error.  (A backslash directly
before the terminating NUL makes the C code scan past the end of the buffer;
that path is modelled as the unterminated-string error.) -/
def parseStringBody : List Char → List Char → ParseOut
  | [], _ => .err
  | c :: rest, acc =>
    if c = '"' then .ok (.str acc.reverse) rest
    else if c = '\\' then
      match rest with
      | [] => .err
      | q :: rest1 =>
        let c1 := if q = 'n' then '\n' else if q = 'r' then '\r'
                  else if q = 't' then '\t' else q
        parseStringBody rest1 (c1 :: acc)
    else parseStringBody rest (c :: acc)

/-- Tuple-element side condition of `parseObject`: a Symbol of byte length
exactly one (quoted or not). -/
def isOneCharSym : Obj → Bool
  | .sym s _ => s.length = 1
  | _ => false

mutual

/-- `parseObject` from aocla.c, driven by fuel.  Dispatches on the first
byte after whitespace/comments: integer, list/tuple/quoted tuple, symbol
(quoted if it starts with a quote), boolean, or string.  The input is
destructured once by `match` (instead of repeated indexing) so that the
definition also evaluates efficiently; the dispatch conditions are those
of the C `if` chain, in the same order. -/
def parseObj : Nat → List Char → ParseOut
  | 0, _ => .out
  | fuel + 1, s0 =>
    match parserConsumeSpace s0 with
    | [] => .err
    | c0 :: s1 =>
      if (c0 = '-' && isdigit (peek s1 0)) || isdigit c0 then
        -- Integer: the longest run of '-' and digits, at most 63 bytes of it.
        let buf := ((c0 :: s1).takeWhile (fun ch => ch = '-' || isdigit ch)).take 63
        .ok (.int (atoi buf)) ((c0 :: s1).drop buf.length)
      else if c0 = '[' || c0 = '(' || (c0 = '\'' && peek s1 0 = '(') then
        -- List, tuple or quoted tuple.
        if c0 = '\'' then
          match s1 with
          | c1 :: s2 => parseElems fuel (c1 = '[') true [] s2
          | [] => parseElems fuel false true [] []
        else
          parseElems fuel (c0 = '[') false [] s1
      else if issymbol c0 then
        -- Symbol, quoted if it starts with a quote character.
        if c0 = '\'' then
          let name := s1.takeWhile issymbol
          .ok (.sym name true) (s1.drop name.length)
        else
          let name := (c0 :: s1).takeWhile issymbol
          .ok (.sym name false) ((c0 :: s1).drop name.length)
      else if c0 = '#' then
        if peek s1 0 ≠ 't' && peek s1 0 ≠ 'f' then .err
        else .ok (.bool (peek s1 0 = 't')) (s1.drop 1)
      else if c0 = '"' then
        parseStringBody s1 []
      else
        .err

/-- Element loop of `parseObject` for `[`/`(` bodies: consume space, finish
on the matching closer, otherwise parse one element recursively; for a tuple
the element must be a single-character symbol.  `acc` holds the elements
parsed so far, most recent first. -/
def parseElems : Nat → Bool → Bool → List Obj → List Char → ParseOut
  | 0, _, _, _, _ => .out
  | fuel + 1, isList, quoted, acc, s0 =>
    match parserConsumeSpace s0 with
    | [] =>
      -- At the NUL terminator: no closer, and parsing one more element hits
      -- the "no object type starts like this" error (as in C).
      match parseObj fuel [] with
      | .out => .out
      | .err => .err
      | .ok element rest =>
        if !isList && !isOneCharSym element then .err
        else parseElems fuel isList quoted (element :: acc) rest
    | c0 :: s1 =>
      if (isList && c0 = ']') || (!isList && c0 = ')') then
        .ok (if isList then .list acc.reverse quoted
             else .tuple acc.reverse quoted) s1
      else
        match parseObj fuel (c0 :: s1) with
        | .out => .out
        | .err => .err
        | .ok element rest =>
          if !isList && !isOneCharSym element then .err
          else parseElems fuel isList quoted (element :: acc) rest

end

/-- Top-level parse of a NUL-terminated buffer, with fuel that is generous
for every input appearing in the development (the parser consumes input at
every recursion level). -/
def parseTop (s : List Char) : ParseOut :=
  parseObj (2 * s.length + 16) s

/-- C `printf("%d", i)`. -/
def intToChars (i : Int) : List Char :=
  if i < 0 then '-' :: Nat.toDigits 10 i.natAbs else Nat.toDigits 10 i.natAbs

/-- String-body escaping of `printobj` under `PRINT_REPR`: `\n`, `\r`, `\t`
and `"` are escaped, every other byte is printed as-is (in particular a
backslash is not escaped). -/
def escapeChars : List Char → List Char
  | [] => []
  | c :: rest =>
    (if c = '\n' then ['\\', 'n']
     else if c = '\r' then ['\\', 'r']
     else if c = '\t' then ['\\', 't']
     else if c = '"' then ['\\', '"']
     else [c]) ++ escapeChars rest

mutual

/-- `printobj` from aocla.c with `flags` reduced to the `PRINT_REPR` bit
(`PRINT_COLOR` only inserts ANSI escapes, which the spec leaves out of
scope).  Note that list/tuple elements are separated by a comma and a space
in both modes, and that symbols print their bare name even when quoted. -/
def printobj (o : Obj) (israpr : Bool) : List Char :=
  match o with
  | .int i => intToChars i
  | .sym name _ => name
  | .str sdata =>
    if !israpr then sdata
    else '"' :: (escapeChars sdata ++ ['"'])
  | .bool b => ['#', if b then 't' else 'f']
  | .list es _ =>
    (if israpr then ['['] else []) ++ printobjList es israpr ++
    (if israpr then [']'] else [])
  | .tuple es _ =>
    (if israpr then ['('] else []) ++ printobjList es israpr ++
    (if israpr then [')'] else [])

/-- Element rendering of `printobj`: `", "` after every element except the
last. -/
def printobjList (es : List Obj) (israpr : Bool) : List Char :=
  match es with
  | [] => []
  | [e] => printobj e israpr
  | e :: rest => printobj e israpr ++ ',' :: ' ' :: printobjList rest israpr

end

/-- C `strcmp` on NUL-terminated byte strings, already normalized to the
sign (`compare` in aocla.c only uses the sign). -/
def strcmp : List Char → List Char → Int
  | [], [] => 0
  | [], _ :: _ => -1
  | _ :: _, [] => 1
  | a :: as, b :: bs =>
    if a.toNat < b.toNat then -1
    else if b.toNat < a.toNat then 1
    else strcmp as bs

/-- String or symbol payload, for the String|Symbol branch of `compare`. -/
def strContents : Obj → Option (List Char)
  | .str s => some s
  | .sym s _ => some s
  | _ => none

/-- List or tuple elements, for the List|Tuple branch of `compare`. -/
def seqElems : Obj → Option (List Obj)
  | .list es _ => some es
  | .tuple es _ => some es
  | _ => none

/-- `compare` from aocla.c: `some (-1|0|1)` for ordered pairs, `none` for
`COMPARE_TYPE_MISMATCH`.  Int vs Int numerically, Bool vs Bool with false
before true, String|Symbol vs String|Symbol by bytes, List|Tuple vs
List|Tuple by length only. -/
def compare (a b : Obj) : Option Int :=
  match a, b with
  | .int x, .int y =>
    some (if x < y then -1 else if y < x then 1 else 0)
  | .bool x, .bool y =>
    some (if !x && y then -1 else if x && !y then 1 else 0)
  | _, _ =>
    match strContents a, strContents b with
    | some sa, some sb => some (strcmp sa sb)
    | _, _ =>
      match seqElems a, seqElems b with
      | some ea, some eb =>
        some (if ea.length < eb.length then -1
              else if eb.length < ea.length then 1 else 0)
      | _, _ => none

mutual

/-- `deepCopy` from aocla.c: recursive structural copy.  (For lists and
tuples the C code leaves the copied `quoted` field uninitialized; every
consumer either overwrites it or never reads it, so the copy preserving the
flag is the faithful observable choice, matching the string/symbol case
where the flag is copied explicitly.) -/
def deepCopy : Obj → Obj
  | .int i => .int i
  | .bool b => .bool b
  | .list es q => .list (deepCopyList es) q
  | .tuple es q => .tuple (deepCopyList es) q
  | .str sdata => .str sdata
  | .sym sdata q => .sym sdata q

/-- Element-wise `deepCopy` of a list/tuple payload. -/
def deepCopyList : List Obj → List Obj
  | [] => []
  | e :: rest => deepCopy e :: deepCopyList rest

end

mutual

/-- Parser invariant of claim C7: every tuple reachable inside the value has
single-character-symbol elements. -/
def TupleWF : Obj → Bool
  | .int _ => true
  | .bool _ => true
  | .str _ => true
  | .sym _ _ => true
  | .list es _ => TupleWFList es
  | .tuple es _ => es.all isOneCharSym && TupleWFList es

/-- Conjunction of `TupleWF` over a list of values. -/
def TupleWFList : List Obj → Bool
  | [] => true
  | e :: rest => TupleWF e && TupleWFList rest

end

/-! ## Interpreter state -/

/-- The native procedures of the built-in library (the C function pointers
stored in `aproc.cproc`), enumerated so that the evaluator can dispatch on
them. -/
inductive CprocId where
  | basicMath
  | compareProc
  | sortList
  | defProc
  | ifProc
  | evalProc
  | upevalProc
  | printProc
  | printnlProc
  | lenProc
  | listAppend
  | listGetAt
  | showStack

/-- `aproc` from aocla.c: a named procedure that is either native (`cproc`)
or a bound Aocla list (`proc`). -/
structure Aproc where
  name : List Char
  proc : Option Obj
  cproc : Option CprocId

/-- `stackframe` from aocla.c: 256 byte-indexed local slots and the current
procedure (the handlers consult only its name; `curline` feeds only the
unmodelled error traces).  The `prev` chain lives in `Aoclactx.prevFrames`. -/
structure Stackframe where
  locals : Nat → Option Obj
  curproc : Option (List Char)

/-- A fresh stack frame (`newStackFrame`): empty locals, no current
procedure. -/
def newStackFrame : Stackframe :=
  { locals := fun _ => none, curproc := none }

/-- `aoclactx` from aocla.c.  The operand stack is held top-first; the
frame `prev` chain is `frame` followed by `prevFrames` (top-level frame
last); `out` collects the bytes written to stdout. -/
structure Aoclactx where
  stack : List Obj
  proc : List Aproc
  frame : Stackframe
  prevFrames : List Stackframe
  out : List Char

/-- `stackPush`: append on top (ownership transfer, no refcount change). -/
def stackPush (ctx : Aoclactx) (o : Obj) : Aoclactx :=
  { ctx with stack := o :: ctx.stack }

/-- `stackPop`: remove and return the top, or return a null handle leaving
the (empty) stack untouched. -/
def stackPop (ctx : Aoclactx) : Option Obj × Aoclactx :=
  match ctx.stack with
  | [] => (none, ctx)
  | o :: rest => (some o, { ctx with stack := rest })

/-- `stackPeek`: the element `offset` positions below the top, or a null
handle when the stack is not that deep. -/
def stackPeek (ctx : Aoclactx) (offset : Nat) : Option Obj :=
  ctx.stack.get? offset

/-- The six type tags, standing for the `OBJ_TYPE_...` bits. -/
inductive ObjType where
  | int
  | bool
  | list
  | tuple
  | str
  | sym
deriving DecidableEq

/-- Tag of a value. -/
def typeOf : Obj → ObjType
  | .int _ => .int
  | .bool _ => .bool
  | .list _ _ => .list
  | .tuple _ _ => .tuple
  | .str _ => .str
  | .sym _ _ => .sym

/-- A bitwise-or of `OBJ_TYPE_...` bits, modelled as the list of tags whose
bit is set. -/
def TypeMask := List ObjType

/-- Does the value's type bit belong to the mask? -/
def maskMatch (m : TypeMask) (o : Obj) : Bool :=
  (m : List ObjType).contains (typeOf o)

/-- `OBJ_TYPE_ANY` (all bits set). -/
def maskAny : TypeMask :=
  [.int, .bool, .list, .tuple, .str, .sym]

/-- Boolean form of `stack.length < min`, by recursion on the bound so that
it reduces even when only a prefix of the stack is known. -/
def stackShorterThan : Nat → List Obj → Bool
  | 0, _ => false
  | _ + 1, [] => true
  | min + 1, _ :: os => stackShorterThan min os

/-- `checkStackLen`: error (`true`) when fewer than `min` operands are on
the stack. -/
def checkStackLen (ctx : Aoclactx) (min : Nat) : Bool :=
  stackShorterThan min ctx.stack

/-- Walk the top of the stack against per-position masks (top of stack
first). -/
def checkTypesTop : List TypeMask → List Obj → Bool
  | [], _ => false
  | _ :: _, [] => false
  | m :: ms, o :: os => !maskMatch m o || checkTypesTop ms os

/-- `checkStackType`: error (`true`) when fewer than `masks.length` operands
are present or one of the top operands fails its mask.  `masks` is given in
the C varargs order, deepest checked position first (the C loop checks
`stack[stacklen-count+i]` against the i-th mask); the result is the same
boolean the C function returns. -/
def checkStackType (ctx : Aoclactx) (masks : List TypeMask) : Bool :=
  if checkStackLen ctx masks.length then true
  else checkTypesTop masks.reverse ctx.stack

/-- `lookupProc`: linear scan of the procedure table by name. -/
def lookupProc (procs : List Aproc) (name : List Char) : Option Aproc :=
  match procs with
  | [] => none
  | p :: rest => if p.name = name then some p else lookupProc rest name

/-- Replace the first table entry with the given name in place, keeping its
position (`addProc`'s redefinition path). -/
def replaceProc (procs : List Aproc) (name : List Char)
    (cproc : Option CprocId) (lst : Option Obj) : List Aproc :=
  match procs with
  | [] => []
  | p :: rest =>
    if p.name = name then { p with proc := lst, cproc := cproc } :: rest
    else p :: replaceProc rest name cproc lst

/-- `addProc` from aocla.c: redefinition replaces the existing binding in
place (releasing the previously bound list), otherwise a new entry is
prepended. -/
def addProc (procs : List Aproc) (name : List Char)
    (cproc : Option CprocId) (lst : Option Obj) : List Aproc :=
  match lookupProc procs name with
  | some _ => replaceProc procs name cproc lst
  | none => { name := name, proc := lst, cproc := cproc } :: procs

/-- `addProcString` from aocla.c, faithfully including its defect: the
NULL check after parsing reads `if (prog == NULL)` — the argument, which a
caller always passes non-null, rather than the parse result — so it never
fires; parsing is not required to produce a List, and its result (even a
non-list, as in claim C4's analysis) is handed to `addProc`.  When the parse
fails, `addProc` receives a NULL list and its
`assert((cproc != NULL) + (list != NULL) == 1)` aborts the process, which
the model renders as `none`; fuel exhaustion is also `none`.  On the path
that returns, the C function returns 0 (`false`). -/
def addProcString (procs : List Aproc) (name prog : List Char) :
    Option (List Aproc × Bool) :=
  match parseTop prog with
  | .ok o _ => some (addProc procs name none (some o), false)
  | .err => none
  | .out => none

/-! ## Native procedures that do not re-enter the evaluator -/

/-- `procBasicMath`: checks two Ints, pops `a` (the top) then `b`, and
pushes `a OP b`, the operator being selected by the name of the procedure
being executed.  An unmatched name leaves the C result variable
uninitialized and division by zero traps; both are modelled as `none`. -/
def procBasicMath (ctx : Aoclactx) : Option (Aoclactx × Bool) :=
  if checkStackType ctx [[.int], [.int]] then some (ctx, true)
  else
    match ctx.stack, ctx.frame.curproc with
    | .int a :: .int b :: rest, some fname =>
      let res : Option Int :=
        if fname = ['+'] then some (a + b)
        else if fname = ['-'] then some (a - b)
        else if fname = ['*'] then some (a * b)
        else if fname = ['/'] then
          if b = 0 then none else some (Int.tdiv a b)
        else none
      match res with
      | some r => some ({ ctx with stack := .int r :: rest }, false)
      | none => none
    | _, _ => none

/-- `procCompare`: pops `b` (the top) then `a`; on `COMPARE_TYPE_MISMATCH`
pushes `b` back first and then `a` (so the two operands come back swapped)
and fails; otherwise interprets the comparison against the name of the
procedure being executed and pushes a Bool. -/
def procCompare (ctx : Aoclactx) : Option (Aoclactx × Bool) :=
  if checkStackLen ctx 2 then some (ctx, true)
  else
    match ctx.stack with
    | b :: a :: rest =>
      match compare a b with
      | none => some ({ ctx with stack := a :: b :: rest }, true)
      | some cmp =>
        match ctx.frame.curproc with
        | none => none
        | some fname =>
          let res : Option Bool :=
            if peek fname 1 = '=' then
              if peek fname 0 = '=' then some (decide (cmp = 0))
              else if peek fname 0 = '!' then some (!decide (cmp = 0))
              else if peek fname 0 = '>' then some (decide (0 ≤ cmp))
              else if peek fname 0 = '<' then some (decide (cmp ≤ 0))
              else none
            else
              if peek fname 0 = '>' then some (decide (0 < cmp))
              else if peek fname 0 = '<' then some (decide (cmp < 0))
              else none
          match res with
          | some r => some ({ ctx with stack := .bool r :: rest }, false)
          | none => none
    | _ => none

/-- Comparator used for sorting (`qsort_obj_cmp`): `COMPARE_TYPE_MISMATCH`
is `INT_MIN`, which qsort reads as "a before b". -/
def objLe (a b : Obj) : Bool :=
  match compare a b with
  | some c => decide (c ≤ 0)
  | none => true

/-- Ordered insertion under `objLe`. -/
def insertSorted (o : Obj) : List Obj → List Obj
  | [] => [o]
  | x :: xs => if objLe o x then o :: x :: xs else x :: insertSorted o xs

/-- Insertion sort under `objLe`.  C sorts with `qsort`, which fixes no
particular permutation for equal (or mismatched) elements; the model fixes
one sorted permutation. -/
def sortObjs : List Obj → List Obj
  | [] => []
  | x :: xs => insertSorted x (sortObjs xs)

/-- `procSortList`: pop a List, sort its elements in place (on an unshared
copy, which is the identity at the value level), push it back. -/
def procSortList (ctx : Aoclactx) : Option (Aoclactx × Bool) :=
  if checkStackType ctx [[.list]] then some (ctx, true)
  else
    match ctx.stack with
    | .list es q :: rest =>
      some ({ ctx with stack := .list (sortObjs es) q :: rest }, false)
    | _ => none

/-- `procDef`: pop a Symbol (top) and a List, and bind the list to the
symbol's name in the procedure table. -/
def procDef (ctx : Aoclactx) : Option (Aoclactx × Bool) :=
  if checkStackType ctx [[.list], [.sym]] then some (ctx, true)
  else
    match ctx.stack with
    | .sym name _ :: code :: rest =>
      some ({ ctx with stack := rest,
                       proc := addProc ctx.proc name none (some code) },
            false)
    | _ => none

/-- `procPrint`: pop the top value and write it to stdout in raw form. -/
def procPrint (ctx : Aoclactx) : Option (Aoclactx × Bool) :=
  if checkStackLen ctx 1 then some (ctx, true)
  else
    match ctx.stack with
    | o :: rest =>
      some ({ ctx with stack := rest, out := ctx.out ++ printobj o false },
            false)
    | _ => none

/-- `procPrintnl`: `procPrint` followed by a newline. -/
def procPrintnl (ctx : Aoclactx) : Option (Aoclactx × Bool) :=
  if checkStackLen ctx 1 then some (ctx, true)
  else
    match procPrint ctx with
    | some (ctx1, err) => some ({ ctx1 with out := ctx1.out ++ ['\n'] }, err)
    | none => none

/-- `procLen`: pop a List/Tuple/String/Symbol and push its element count or
byte length. -/
def procLen (ctx : Aoclactx) : Option (Aoclactx × Bool) :=
  if checkStackType ctx [[.list, .tuple, .str, .sym]] then some (ctx, true)
  else
    match ctx.stack with
    | o :: rest =>
      let len : Option Nat :=
        match o with
        | .list es _ => some es.length
        | .tuple es _ => some es.length
        | .str s => some s.length
        | .sym s _ => some s.length
        | _ => none
      match len with
      | some n => some ({ ctx with stack := .int (n : Int) :: rest }, false)
      | none => none
    | _ => none

/-- `procListAppend` (`->` appends at the tail, `<-` at the head): pop a
List (top) and an element, append (on an unshared copy, identity at the
value level) and push the list back. -/
def procListAppend (ctx : Aoclactx) : Option (Aoclactx × Bool) :=
  match ctx.frame.curproc with
  | none => none
  | some fname =>
    let tail := peek fname 0 = '-'
    if checkStackType ctx [maskAny, [.list]] then some (ctx, true)
    else
      match ctx.stack with
      | .list es q :: ele :: rest =>
        let es1 := if tail then es ++ [ele] else ele :: es
        some ({ ctx with stack := .list es1 q :: rest }, false)
      | _ => none

/-- Index normalization of `procListGetAt`: `if (i < 0) i = len+i;` — a
negative index counts from the end (`-1` is the last element). -/
def normIndex (idx len : Int) : Int :=
  if idx < 0 then len + idx else idx

/-- `procListGetAt` (`get@`): pop an Int index (top) and a
List/Tuple/String; a negative index counts from the end; still out of range
pushes `#f`; otherwise the element is pushed (for a String, a fresh
one-byte String). -/
def procListGetAt (ctx : Aoclactx) : Option (Aoclactx × Bool) :=
  if checkStackType ctx [[.list, .str, .tuple], [.int]] then some (ctx, true)
  else
    match ctx.stack with
    | .int idx :: o :: rest =>
      match o with
      | .str s =>
        let len : Int := s.length
        let i := normIndex idx len
        if i < 0 || len ≤ i then
          some ({ ctx with stack := .bool false :: rest }, false)
        else
          some ({ ctx with stack := .str ((s.drop i.toNat).take 1) :: rest },
                false)
      | .list es _ | .tuple es _ =>
        let len : Int := es.length
        let i := normIndex idx len
        if i < 0 || len ≤ i then
          some ({ ctx with stack := .bool false :: rest }, false)
        else
          match es.get? i.toNat with
          | some e => some ({ ctx with stack := e :: rest }, false)
          | none => none
      | _ => none
    | _ => none

/-- `stackShow`: render the top (up to) 10 elements, deepest first, each in
repr form followed by a space (ANSI color is out of scope), then the
"more objects" marker — whose count the C code prints as the final loop
index, that is the whole stack length — and a newline when non-empty. -/
def stackShow (ctx : Aoclactx) : List Char :=
  let shown := (ctx.stack.take 10).reverse
  let core := shown.foldl (fun acc o => acc ++ printobj o true ++ [' ']) []
  let more :=
    if stackShorterThan 11 ctx.stack then []
    else "[... ".toList ++ Nat.toDigits 10 ctx.stack.length ++
         " more object ...]".toList
  let nl := if ctx.stack.isEmpty then [] else ['\n']
  core ++ more ++ nl

/-- `procShowStack`: print the stack rendering. -/
def procShowStack (ctx : Aoclactx) : Option (Aoclactx × Bool) :=
  some ({ ctx with out := ctx.out ++ stackShow ctx }, false)

/-! ## The evaluator -/

/-- Local-capture loop of `eval`'s Tuple branch: for the i-th tuple element
the captured value is `stack[stacklen+i]` (deepest captured value first);
the slot index is the first byte of the element's symbol name; the previous
occupant is released.  `vals` is passed deepest-first.  A non-symbol tuple
element would make C read through the wrong union arm (undefined), hence
`none`. -/
def captureLocals (locals : Nat → Option Obj) :
    List Obj → List Obj → Option (Nat → Option Obj)
  | [], _ => some locals
  | ele :: es, v :: vs =>
    match ele with
    | .sym name _ =>
      let idx := (peek name 0).toNat
      captureLocals (fun j => if j = idx then some v else locals j) es vs
    | _ => none
  | _ :: _, [] => none

mutual

/-- The element loop of `eval` from aocla.c: process the program list's
elements left to right, stopping at the first error.  `some (ctx, false)`
is success with the final context, `some (ctx, true)` a runtime error (C
return code 1), `none` fuel exhaustion or C undefined behaviour. -/
def evalList : Nat → Aoclactx → List Obj → Option (Aoclactx × Bool)
  | 0, _, _ => none
  | fuel + 1, ctx, elems =>
    match elems with
    | [] => some (ctx, false)
    | o :: rest =>
      match evalStep fuel ctx o with
      | none => none
      | some (ctx1, true) => some (ctx1, true)
      | some (ctx1, false) => evalList fuel ctx1 rest

/-- One dispatch step of `eval`: an unquoted Tuple captures locals; a quoted
Tuple or Symbol pushes an unquoted deep copy; `$x` pushes the local; any
other Symbol calls the procedure bound to it; every other value is pushed. -/
def evalStep : Nat → Aoclactx → Obj → Option (Aoclactx × Bool)
  | 0, _, _ => none
  | fuel + 1, ctx, o =>
    match o with
    | .tuple es q =>
      if q then
        let notq :=
          match deepCopy (Obj.tuple es q) with
          | .tuple es1 _ => Obj.tuple es1 false
          | other => other
        some (stackPush ctx notq, false)
      else
        let n := es.length
        if stackShorterThan n ctx.stack then
          some (ctx, true)
        else
          match captureLocals ctx.frame.locals es ((ctx.stack.take n).reverse) with
          | none => none
          | some locals1 =>
            some ({ ctx with stack := ctx.stack.drop n,
                             frame := { ctx.frame with locals := locals1 } },
                  false)
    | .sym name q =>
      if q then
        let notq :=
          match deepCopy (Obj.sym name q) with
          | .sym n1 _ => Obj.sym n1 false
          | other => other
        some (stackPush ctx notq, false)
      else if peek name 0 = '$' then
        let idx := (peek name 1).toNat
        match ctx.frame.locals idx with
        | none => some (ctx, true)
        | some v => some (stackPush ctx v, false)
      else
        match lookupProc ctx.proc name with
        | none => some (ctx, true)
        | some p =>
          match p.cproc with
          | some id =>
            let prev := ctx.frame.curproc
            let ctx1 := { ctx with
                          frame := { ctx.frame with curproc := some p.name } }
            match callCproc fuel id ctx1 with
            | none => none
            | some (ctx2, err) =>
              some ({ ctx2 with
                      frame := { ctx2.frame with curproc := prev } }, err)
          | none =>
            match p.proc with
            | some (.list body _) =>
              let ctx1 := { ctx with
                            frame := { newStackFrame with curproc := some p.name },
                            prevFrames := ctx.frame :: ctx.prevFrames }
              match evalList fuel ctx1 body with
              | none => none
              | some (ctx2, err) =>
                match ctx2.prevFrames with
                | f :: fs =>
                  some ({ ctx2 with frame := f, prevFrames := fs }, err)
                | [] => none
            | _ => none
    | other => some (stackPush ctx other, false)

/-- Dispatch a native procedure by its identifier (calling through the C
function pointer). -/
def callCproc : Nat → CprocId → Aoclactx → Option (Aoclactx × Bool)
  | 0, _, _ => none
  | fuel + 1, id, ctx =>
    match id with
    | .basicMath => procBasicMath ctx
    | .compareProc => procCompare ctx
    | .sortList => procSortList ctx
    | .defProc => procDef ctx
    | .ifProc => procIf fuel ctx
    | .evalProc => procEval fuel ctx
    | .upevalProc => procUpeval fuel ctx
    | .printProc => procPrint ctx
    | .printnlProc => procPrintnl ctx
    | .lenProc => procLen ctx
    | .listAppend => procListAppend ctx
    | .listGetAt => procListGetAt ctx
    | .showStack => procShowStack ctx

/-- Evaluate a popped program object.  `eval` asserts its argument is a
List; every caller guarantees it, so the non-list case is stuck. -/
def evalProg : Nat → Aoclactx → Obj → Option (Aoclactx × Bool)
  | 0, _, _ => none
  | fuel + 1, ctx, l =>
    match l with
    | .list es _ => evalList fuel ctx es
    | _ => none

/-- `procEval`: pop a List and evaluate it in the current frame, consuming
it. -/
def procEval : Nat → Aoclactx → Option (Aoclactx × Bool)
  | 0, _ => none
  | fuel + 1, ctx =>
    if checkStackType ctx [[.list]] then some (ctx, true)
    else
      match ctx.stack with
      | .list body _ :: rest => evalList fuel { ctx with stack := rest } body
      | _ => none

/-- `procUpeval`: pop a List; when the current frame has a parent, evaluate
with the frame temporarily set to the parent and then restore the saved
frame (whose `prev` pointer picks up whatever the evaluation left there);
with no parent, evaluate exactly as `procEval` does. -/
def procUpeval : Nat → Aoclactx → Option (Aoclactx × Bool)
  | 0, _ => none
  | fuel + 1, ctx =>
    if checkStackType ctx [[.list]] then some (ctx, true)
    else
      match ctx.stack with
      | .list body _ :: rest =>
        let ctx0 := { ctx with stack := rest }
        match ctx0.prevFrames with
        | [] => evalList fuel ctx0 body
        | pf :: pfs =>
          let saved := ctx0.frame
          match evalList fuel { ctx0 with frame := pf, prevFrames := pfs } body with
          | none => none
          | some (ctx2, err) =>
            some ({ ctx2 with frame := saved,
                              prevFrames := ctx2.frame :: ctx2.prevFrames },
                  err)
      | _ => none

/-- `procIf` (`if`, `ifelse`, `while`, told apart by the executing name's
first and third bytes): pop the branch lists, then run the
condition/branch loop of the C `while(1)`. -/
def procIf : Nat → Aoclactx → Option (Aoclactx × Bool)
  | 0, _ => none
  | fuel + 1, ctx =>
    match ctx.frame.curproc with
    | none => none
    | some fname =>
      let w := peek fname 0 = 'w'
      let e := peek fname 2 = 'e'
      if e then
        if checkStackType ctx [[.list], [.list], [.list]] then some (ctx, true)
        else
          match ctx.stack with
          | elseb :: ifb :: cond :: rest =>
            ifLoop fuel { ctx with stack := rest } w (some elseb) ifb cond
          | _ => none
      else
        if checkStackType ctx [[.list], [.list]] then some (ctx, true)
        else
          match ctx.stack with
          | ifb :: cond :: rest =>
            ifLoop fuel { ctx with stack := rest } w none ifb cond
          | _ => none

/-- Condition/branch loop shared by `if`, `ifelse` and `while`: evaluate the
condition, require a Bool on top, consume it; true runs the then-branch
(and repeats for `while`), false runs the else-branch when present.  Errors
propagate (the C cleanup only releases the three lists). -/
def ifLoop : Nat → Aoclactx → Bool → Option Obj → Obj → Obj →
    Option (Aoclactx × Bool)
  | 0, _, _, _, _, _ => none
  | fuel + 1, ctx, w, elseb, ifb, cond =>
    match evalProg fuel ctx cond with
    | none => none
    | some (ctx1, true) => some (ctx1, true)
    | some (ctx1, false) =>
      if checkStackType ctx1 [[.bool]] then some (ctx1, true)
      else
        match ctx1.stack with
        | .bool res :: rest =>
          let ctx2 := { ctx1 with stack := rest }
          if res then
            match evalProg fuel ctx2 ifb with
            | none => none
            | some (ctx3, true) => some (ctx3, true)
            | some (ctx3, false) =>
              if w then ifLoop fuel ctx3 w elseb ifb cond
              else some (ctx3, false)
          else
            match elseb with
            | some eb =>
              match evalProg fuel ctx2 eb with
              | none => none
              | some (ctx3, err) => some (ctx3, err)
            | none => some (ctx2, false)
        | _ => none

end

/-! ## Library loading and interpreter construction -/

/-- `addProcString` as called during `loadLibrary`, where C ignores the
return value; the library sources below all parse as lists, so the `none`
branch (a C `assert` abort) is never taken for them. -/
def addProcStringQuiet (procs : List Aproc) (name prog : List Char) :
    List Aproc :=
  match addProcString procs name prog with
  | some (ps, _) => ps
  | none => procs

/-- `loadLibrary` from aocla.c: register the native procedures, then the
bootstrap procedures written in Aocla, in source order. -/
def loadLibrary (procs0 : List Aproc) : List Aproc :=
  let ps := addProc procs0 "+".toList (some .basicMath) none
  let ps := addProc ps "-".toList (some .basicMath) none
  let ps := addProc ps "*".toList (some .basicMath) none
  let ps := addProc ps "/".toList (some .basicMath) none
  let ps := addProc ps "==".toList (some .compareProc) none
  let ps := addProc ps ">=".toList (some .compareProc) none
  let ps := addProc ps ">".toList (some .compareProc) none
  let ps := addProc ps "<=".toList (some .compareProc) none
  let ps := addProc ps "<".toList (some .compareProc) none
  let ps := addProc ps "!=".toList (some .compareProc) none
  let ps := addProc ps "sort".toList (some .sortList) none
  let ps := addProc ps "def".toList (some .defProc) none
  let ps := addProc ps "if".toList (some .ifProc) none
  let ps := addProc ps "ifelse".toList (some .ifProc) none
  let ps := addProc ps "while".toList (some .ifProc) none
  let ps := addProc ps "eval".toList (some .evalProc) none
  let ps := addProc ps "upeval".toList (some .upevalProc) none
  let ps := addProc ps "print".toList (some .printProc) none
  let ps := addProc ps "printnl".toList (some .printnlProc) none
  let ps := addProc ps "len".toList (some .lenProc) none
  let ps := addProc ps "->".toList (some .listAppend) none
  let ps := addProc ps "<-".toList (some .listAppend) none
  let ps := addProc ps "get@".toList (some .listGetAt) none
  let ps := addProc ps "showstack".toList (some .showStack) none
  let ps := addProcStringQuiet ps "dup".toList "[(x) $x $x]".toList
  let ps := addProcStringQuiet ps "swap".toList "[(x y) $y $x]".toList
  let ps := addProcStringQuiet ps "drop".toList "[(_)]".toList
  let ps := addProcStringQuiet ps "map".toList
    "[(l f) $l len (e) 0 (j) [] [$j $e <] [ $l $j get@ $f upeval swap -> $j 1 + (j)] while]".toList
  let ps := addProcStringQuiet ps "foreach".toList
    " [(l f) $l len (e) 0 (j) [$j $e <] [$l $j get@ $f upeval $j 1 + (j)] while]".toList
  let ps := addProcStringQuiet ps "first".toList "[0 get@]".toList
  let ps := addProcStringQuiet ps "rest".toList
    "[#t (f) [] (n) [[$f] [#f (f) drop] [$n -> (n)] ifelse] foreach $n]".toList
  let ps := addProcStringQuiet ps "cat".toList
    "[(a b) $b [$a -> (a)] foreach $a]".toList
  ps

/-- `newInterpreter` from aocla.c: empty stack, a fresh top-level frame with
no parent, and the loaded library. -/
def newInterpreter : Aoclactx :=
  { stack := [], proc := loadLibrary [], frame := newStackFrame,
    prevFrames := [], out := [] }

/-! ## Claims -/

/-- C1: the repr round-trip fails on the code.  The two-element list value
parsed from `[1 2]` (so producible from `parseObject`) prints under
`PRINT_REPR` as `[1, 2]`, which `parseObject` rejects — the parser accepts
no commas — instead of yielding a value equal to the original.  The third
conjunct is a definite syntax error (`ParseOut.err`), not fuel exhaustion. -/
theorem c1_repr_roundtrip_fails :
    parseTop "[1 2]".toList = .ok (Obj.list [.int 1, .int 2] false) [] ∧
    printobj (Obj.list [.int 1, .int 2] false) true = "[1, 2]".toList ∧
    parseTop (printobj (Obj.list [.int 1, .int 2] false) true) = .err :=
  ⟨rfl, rfl, rfl⟩

/-- C4: `addProcString` mis-checks `prog` instead of the parse result and
never inspects the parsed value's type.  Source text `123` parses to an
Int, yet the name is bound to it and 0 is returned (first conjunct),
contradicting the claim that non-List sources return 1 and leave the table
unchanged; unparsable text (`]`) reaches `addProc` with a NULL list and
dies on its assertion (modelled as `none`) instead of returning 1 (second
conjunct). -/
theorem c4_addProcString_bug :
    addProcString [] "f".toList "123".toList =
      some ([{ name := "f".toList, proc := some (Obj.int 123), cproc := none }],
            false) ∧
    addProcString [] "g".toList "]".toList = none :=
  ⟨rfl, rfl⟩

/-- C10: `stackPop` on an empty operand stack returns a null handle and
leaves the context (hence the empty stack) untouched, and `stackPeek`
returns a null handle for every offset at or beyond the stack depth; in
this embedding both access the stack only through total list operations, so
no out-of-bounds slot is ever read. -/
theorem c10_stack_bounds_safe :
    (∀ ctx : Aoclactx, ctx.stack = [] → stackPop ctx = (none, ctx)) ∧
    (∀ (ctx : Aoclactx) (offset : Nat), ctx.stack.length ≤ offset →
       stackPeek ctx offset = none) := by
  constructor
  · intro ctx h
    simp [stackPop, h]
  · intro ctx offset h
    exact List.get?_eq_none.2 h

/-- C10 witness: both parts hold on the freshly constructed interpreter,
whose stack is empty. -/
theorem c10_stack_bounds_safe_witness :
    stackPop newInterpreter = (none, newInterpreter) ∧
    stackPeek newInterpreter 0 = none :=
  ⟨c10_stack_bounds_safe.1 newInterpreter rfl,
   c10_stack_bounds_safe.2 newInterpreter 0 (Nat.le_refl 0)⟩

/-- C5: for two List/Tuple operands, `compare` looks only at the lengths:
`-1` when the first has fewer elements, `1` when more, `0` when equal,
whatever the elements are. -/
theorem c5_compare_list_by_length_only (a b : Obj) (ea eb : List Obj)
    (ha : seqElems a = some ea) (hb : seqElems b = some eb) :
    compare a b = some (if ea.length < eb.length then -1
                        else if eb.length < ea.length then 1 else 0) := by
  cases a <;> cases b <;> simp_all [seqElems, compare, strContents]

/-- C5 witness: a one-element list against an empty tuple compares as
greater, by length only. -/
theorem c5_compare_list_by_length_only_witness :
    compare (Obj.list [Obj.int 5] false) (Obj.tuple [] false) = some 1 := by
  have h := c5_compare_list_by_length_only (Obj.list [Obj.int 5] false)
    (Obj.tuple [] false) [Obj.int 5] [] rfl rfl
  simpa using h

/-- C8: when the current frame has no parent, `procUpeval` is extensionally
identical to `procEval` — same operand-stack check, same popped list, same
evaluation in the current frame, hence the same resulting context (stack
and locals) and return code. -/
theorem c8_upeval_without_parent_is_eval (fuel : Nat) (ctx : Aoclactx)
    (h : ctx.prevFrames = []) : procUpeval fuel ctx = procEval fuel ctx := by
  cases fuel with
  | zero => rfl
  | succ fuel =>
    simp only [procUpeval, procEval]
    split
    · rfl
    · split
      · simp [h]
      · rfl

/-- C8 witness: on a fresh interpreter (top-level frame, no parent) with a
list on the stack, `upeval` and `eval` agree. -/
theorem c8_upeval_without_parent_is_eval_witness :
    procUpeval 5 { newInterpreter with stack := [Obj.list [Obj.int 1] false] } =
    procEval 5 { newInterpreter with stack := [Obj.list [Obj.int 1] false] } :=
  c8_upeval_without_parent_is_eval 5
    { newInterpreter with stack := [Obj.list [Obj.int 1] false] } rfl

/-- A context whose stack holds the Int 7 with an empty List on top of it —
a `COMPARE_TYPE_MISMATCH` pair — about to execute `==`. -/
def c3ctx : Aoclactx :=
  { stack := [Obj.list [] false, Obj.int 7], proc := [],
    frame := { newStackFrame with curproc := some "==".toList },
    prevFrames := [], out := [] }

/-- C3 counterexample: on a type mismatch `procCompare` does fail with
return code 1, but the operand stack it leaves is not the pre-call stack:
the two operands come back in swapped order (the C code pops `b` then `a`
and pushes them back in that same order). -/
theorem c3_restore_order_counterexample :
    procCompare c3ctx =
      some ({ c3ctx with stack := [Obj.int 7, Obj.list [] false] }, true) ∧
    [Obj.int 7, Obj.list [] false] ≠ c3ctx.stack := by
  refine ⟨rfl, ?_⟩
  intro h
  simp [c3ctx] at h

/-- C3 amended: for every pair of operands on which `compare` reports a
type mismatch, each comparison builtin fails with return code 1 and pushes
both operands back — first the first-popped `b`, then `a` — so the two
operands end up exchanged relative to the pre-call stack (same objects,
swapped order); the rest of the stack is untouched. -/
theorem c3_mismatch_swaps_operands (ctx : Aoclactx) (a b : Obj)
    (rest : List Obj) (hs : ctx.stack = b :: a :: rest)
    (hm : compare a b = none) :
    procCompare ctx = some ({ ctx with stack := a :: b :: rest }, true) := by
  obtain ⟨stk, prc, fr, pf, o⟩ := ctx
  dsimp only at hs
  subst hs
  simp [procCompare, hm, checkStackLen, stackShorterThan]

/-- C3 witness: the amended behaviour on the concrete mismatching pair. -/
theorem c3_mismatch_swaps_operands_witness :
    procCompare c3ctx =
      some ({ c3ctx with stack := [Obj.int 7, Obj.list [] false] }, true) :=
  c3_mismatch_swaps_operands c3ctx (Obj.int 7) (Obj.list [] false) [] rfl rfl

/-- C2: `procBasicMath` pops `a` (the top of the stack) first, then `b`,
and pushes the single Int `a OP b`, the operator chosen by the name of the
executing procedure (division by zero is undefined in C, hence the
divisor-nonzero hypothesis on `/`); and the program `[3 2 -]` evaluated on
the fresh interpreter's empty stack leaves exactly the Int `-1` (the top
`2` is popped as `a`, then `b = 3`, and `2 - 3 = -1`). -/
theorem c2_basicMath_order_and_result (ctx : Aoclactx) (a b : Int)
    (rest : List Obj) (hs : ctx.stack = Obj.int a :: Obj.int b :: rest) :
    (ctx.frame.curproc = some "+".toList →
       procBasicMath ctx =
         some ({ ctx with stack := Obj.int (a + b) :: rest }, false)) ∧
    (ctx.frame.curproc = some "-".toList →
       procBasicMath ctx =
         some ({ ctx with stack := Obj.int (a - b) :: rest }, false)) ∧
    (ctx.frame.curproc = some "*".toList →
       procBasicMath ctx =
         some ({ ctx with stack := Obj.int (a * b) :: rest }, false)) ∧
    (ctx.frame.curproc = some "/".toList → b ≠ 0 →
       procBasicMath ctx =
         some ({ ctx with stack := Obj.int (Int.tdiv a b) :: rest }, false)) ∧
    (evalList 10 newInterpreter
        [Obj.int 3, Obj.int 2, Obj.sym "-".toList false]).map
      (fun r => (r.1.stack, r.2)) = some ([Obj.int (-1)], false) := by
  obtain ⟨stk, prc, fr, pf, o⟩ := ctx
  obtain ⟨loc, cp⟩ := fr
  dsimp only at hs ⊢
  subst hs
  refine ⟨fun h => ?_, fun h => ?_, fun h => ?_, fun h hb => ?_, rfl⟩ <;>
    subst h
  · rfl
  · rfl
  · rfl
  · simp only [procBasicMath, if_neg hb]
    rfl

/-- A context with Ints 4 below 9 on the stack, about to execute `-`. -/
def c2ctx : Aoclactx :=
  { stack := [Obj.int 9, Obj.int 4], proc := [],
    frame := { newStackFrame with curproc := some "-".toList },
    prevFrames := [], out := [] }

/-- C2 witness: popping `a = 9` then `b = 4` pushes `9 - 4 = 5`. -/
theorem c2_basicMath_order_and_result_witness :
    procBasicMath c2ctx = some ({ c2ctx with stack := [Obj.int 5] }, false) :=
  (c2_basicMath_order_and_result c2ctx 9 4 [] rfl).2.1 rfl

/-- C6: `get@` on a List, Tuple or String under an Int index pushes the
element at the index normalized by `normIndex` (negative indices count from
the end, `-1` being the last element), pushes the Bool `#f` for every index
still out of range after normalization, and for a String pushes a fresh
one-byte String; it never fails (return code 0 in all these cases).  The
last three conjuncts run the claim's concrete scenarios through the full
evaluator: `[1 2 3] 0 get@` yields `1`, `[1 2 3] -1 get@` yields `3`, and
`[1 2 3] 9 get@` yields `#f`. -/
theorem c6_getAt_total (ctx : Aoclactx) (idx : Int) (rest : List Obj) :
    (∀ es q, ctx.stack = Obj.int idx :: Obj.list es q :: rest →
       procListGetAt ctx = some ({ ctx with stack :=
         (if 0 ≤ normIndex idx es.length ∧
             normIndex idx es.length < (es.length : Int)
          then (es.get? (normIndex idx es.length).toNat).getD (Obj.bool false)
          else Obj.bool false) :: rest }, false)) ∧
    (∀ es q, ctx.stack = Obj.int idx :: Obj.tuple es q :: rest →
       procListGetAt ctx = some ({ ctx with stack :=
         (if 0 ≤ normIndex idx es.length ∧
             normIndex idx es.length < (es.length : Int)
          then (es.get? (normIndex idx es.length).toNat).getD (Obj.bool false)
          else Obj.bool false) :: rest }, false)) ∧
    (∀ s, ctx.stack = Obj.int idx :: Obj.str s :: rest →
       procListGetAt ctx = some ({ ctx with stack :=
         (if 0 ≤ normIndex idx s.length ∧
             normIndex idx s.length < (s.length : Int)
          then Obj.str ((s.drop (normIndex idx s.length).toNat).take 1)
          else Obj.bool false) :: rest }, false)) ∧
    (evalList 10 newInterpreter [Obj.list [Obj.int 1, Obj.int 2, Obj.int 3] false,
        Obj.int 0, Obj.sym "get@".toList false]).map (fun r => (r.1.stack, r.2)) =
      some ([Obj.int 1], false) ∧
    (evalList 10 newInterpreter [Obj.list [Obj.int 1, Obj.int 2, Obj.int 3] false,
        Obj.int (-1), Obj.sym "get@".toList false]).map (fun r => (r.1.stack, r.2)) =
      some ([Obj.int 3], false) ∧
    (evalList 10 newInterpreter [Obj.list [Obj.int 1, Obj.int 2, Obj.int 3] false,
        Obj.int 9, Obj.sym "get@".toList false]).map (fun r => (r.1.stack, r.2)) =
      some ([Obj.bool false], false) := by
  obtain ⟨stk, prc, fr, pf, ob⟩ := ctx
  refine ⟨?_, ?_, ?_, rfl, rfl, rfl⟩
  · intro es q hs
    dsimp only at hs
    subst hs
    have hcst : checkStackType
        { stack := Obj.int idx :: Obj.list es q :: rest, proc := prc,
          frame := fr, prevFrames := pf, out := ob }
        [[.list, .str, .tuple], [.int]] = false := rfl
    by_cases hin : 0 ≤ normIndex idx es.length ∧
        normIndex idx es.length < (es.length : Int)
    · have h1 : ¬ (normIndex idx (es.length : Int) < 0) := by omega
      have h2 : ¬ ((es.length : Int) ≤ normIndex idx (es.length : Int)) := by
        omega
      have hlt : (normIndex idx (es.length : Int)).toNat < es.length := by
        omega
      simp [procListGetAt, hcst, h1, h2, hin, List.get?_eq_get hlt]
    · have h12 : normIndex idx (es.length : Int) < 0 ∨
          (es.length : Int) ≤ normIndex idx (es.length : Int) := by omega
      rcases h12 with h | h <;> simp [procListGetAt, hcst, h, hin]
  · intro es q hs
    dsimp only at hs
    subst hs
    have hcst : checkStackType
        { stack := Obj.int idx :: Obj.tuple es q :: rest, proc := prc,
          frame := fr, prevFrames := pf, out := ob }
        [[.list, .str, .tuple], [.int]] = false := rfl
    by_cases hin : 0 ≤ normIndex idx es.length ∧
        normIndex idx es.length < (es.length : Int)
    · have h1 : ¬ (normIndex idx (es.length : Int) < 0) := by omega
      have h2 : ¬ ((es.length : Int) ≤ normIndex idx (es.length : Int)) := by
        omega
      have hlt : (normIndex idx (es.length : Int)).toNat < es.length := by
        omega
      simp [procListGetAt, hcst, h1, h2, hin, List.get?_eq_get hlt]
    · have h12 : normIndex idx (es.length : Int) < 0 ∨
          (es.length : Int) ≤ normIndex idx (es.length : Int) := by omega
      rcases h12 with h | h <;> simp [procListGetAt, hcst, h, hin]
  · intro s hs
    dsimp only at hs
    subst hs
    have hcst : checkStackType
        { stack := Obj.int idx :: Obj.str s :: rest, proc := prc,
          frame := fr, prevFrames := pf, out := ob }
        [[.list, .str, .tuple], [.int]] = false := rfl
    by_cases hin : 0 ≤ normIndex idx s.length ∧
        normIndex idx s.length < (s.length : Int)
    · have h1 : ¬ (normIndex idx (s.length : Int) < 0) := by omega
      have h2 : ¬ ((s.length : Int) ≤ normIndex idx (s.length : Int)) := by
        omega
      simp [procListGetAt, hcst, h1, h2, hin]
    · have h12 : normIndex idx (s.length : Int) < 0 ∨
          (s.length : Int) ≤ normIndex idx (s.length : Int) := by omega
      rcases h12 with h | h <;> simp [procListGetAt, hcst, h, hin]

/-- A context with the list `[10 20 30]` below the index `-1`, about to
execute `get@`. -/
def c6ctx : Aoclactx :=
  { stack := [Obj.int (-1), Obj.list [Obj.int 10, Obj.int 20, Obj.int 30] false],
    proc := [], frame := { newStackFrame with curproc := some "get@".toList },
    prevFrames := [], out := [] }

/-- C6 witness: `get@` at index `-1` on `[10 20 30]` pushes the last
element `30`. -/
theorem c6_getAt_total_witness :
    procListGetAt c6ctx = some ({ c6ctx with stack := [Obj.int 30] }, false) :=
  (c6_getAt_total c6ctx (-1) []).1 [Obj.int 10, Obj.int 20, Obj.int 30] false rfl

/-- `TupleWFList` is the conjunction of `TupleWF` over the list. -/
theorem tupleWFList_eq_all (l : List Obj) : TupleWFList l = l.all TupleWF := by
  induction l with
  | nil => rfl
  | cons e rest ih => simp [TupleWFList, ih]

/-- The string-body scan of the parser produces only String objects. -/
theorem parseStringBody_isStr :
    ∀ (n : Nat) (s acc : List Char) (v : Obj) (rest : List Char),
      s.length ≤ n → parseStringBody s acc = .ok v rest →
      ∃ cs, v = .str cs := by
  intro n
  induction n with
  | zero =>
    intro s acc v rest hlen h
    have hs : s = [] := List.length_eq_zero.mp (Nat.le_zero.mp hlen)
    subst hs
    simp [parseStringBody] at h
  | succ n ih =>
    intro s acc v rest hlen h
    cases s with
    | nil => exact ParseOut.noConfusion h
    | cons c cs =>
      rw [parseStringBody.eq_def] at h
      dsimp only at h
      by_cases h1 : c = '"'
      · rw [if_pos h1] at h
        injection h with hv hr
        exact ⟨acc.reverse, hv.symm⟩
      · rw [if_neg h1] at h
        by_cases h2 : c = '\\'
        · rw [if_pos h2] at h
          cases cs with
          | nil => simp at h
          | cons q rest1 =>
            refine ih rest1 _ v rest ?_ h
            simp at hlen
            omega
        · rw [if_neg h2] at h
          refine ih cs _ v rest ?_ h
          simp at hlen
          omega

/-- Joint parser invariant, by induction on fuel: a successful parse of one
object yields a tuple-invariant value, and the bracket-body loop yields a
tuple-invariant value whenever its accumulator is tuple-invariant (and, for
a tuple body, made of single-character symbols). -/
theorem parse_tupleWF :
    ∀ fuel : Nat,
      (∀ s v rest, parseObj fuel s = .ok v rest → TupleWF v = true) ∧
      (∀ isList quoted acc s v rest,
          parseElems fuel isList quoted acc s = .ok v rest →
          TupleWFList acc = true →
          (isList = false → acc.all isOneCharSym = true) →
          TupleWF v = true) := by
  intro fuel
  induction fuel with
  | zero =>
    constructor
    · intro s v rest h
      exact ParseOut.noConfusion h
    · intro isList quoted acc s v rest h _ _
      exact ParseOut.noConfusion h
  | succ fuel ih =>
    obtain ⟨ih1, ih2⟩ := ih
    have step : ∀ (isList quoted : Bool) (acc : List Obj) (s2 : List Char)
        (v : Obj) (rest : List Char),
        (match parseObj fuel s2 with
         | .out => ParseOut.out
         | .err => ParseOut.err
         | .ok element r =>
           if !isList && !isOneCharSym element then ParseOut.err
           else parseElems fuel isList quoted (element :: acc) r) = .ok v rest →
        TupleWFList acc = true →
        (isList = false → acc.all isOneCharSym = true) →
        TupleWF v = true := by
      intro isList quoted acc s2 v rest h hacc hone
      split at h
      · exact absurd h (by simp)
      · exact absurd h (by simp)
      next element r hp =>
        split at h
        · exact absurd h (by simp)
        next hcond =>
          refine ih2 _ _ _ _ _ _ h ?_ ?_
          · simp [TupleWFList, ih1 _ _ _ hp, hacc]
          · intro hIL
            subst hIL
            simp only [Bool.not_false, Bool.true_and, Bool.not_eq_true'] at hcond
            simp [List.all_cons, hcond, hone rfl]
    constructor
    · intro s v rest h
      simp only [parseObj] at h
      split at h
      · exact absurd h (by simp)
      next c0 s1 hcs =>
        split at h
        · -- Integer branch.
          injection h with hv hr
          subst hv
          rfl
        · split at h
          · -- List/tuple branch.
            split at h
            · -- Quoted: dispatch on the byte after the quote.
              split at h
              next c1 s2 => exact ih2 _ _ _ _ _ _ h rfl (fun _ => rfl)
              · exact ih2 _ _ _ _ _ _ h rfl (fun _ => rfl)
            · exact ih2 _ _ _ _ _ _ h rfl (fun _ => rfl)
          · split at h
            · -- Symbol branch.
              split at h
              · injection h with hv hr
                subst hv
                rfl
              · injection h with hv hr
                subst hv
                rfl
            · split at h
              · -- Boolean branch.
                split at h
                · exact absurd h (by simp)
                · injection h with hv hr
                  subst hv
                  rfl
              · split at h
                · -- String branch.
                  obtain ⟨cs, hv⟩ :=
                    parseStringBody_isStr s1.length s1 [] v rest (Nat.le_refl _) h
                  subst hv
                  rfl
                · exact absurd h (by simp)
    · intro isList quoted acc s v rest h hacc hone
      simp only [parseElems] at h
      split at h
      · exact step _ _ _ _ _ _ h hacc hone
      next c0 s1 hcs =>
        split at h
        · -- Closer: the accumulated elements become the value.
          injection h with hv hr
          subst hv
          cases isList with
          | true =>
            show TupleWFList acc.reverse = true
            rw [tupleWFList_eq_all, List.all_reverse, ← tupleWFList_eq_all]
            exact hacc
          | false =>
            show (acc.reverse.all isOneCharSym && TupleWFList acc.reverse) = true
            rw [tupleWFList_eq_all, List.all_reverse, List.all_reverse,
                ← tupleWFList_eq_all, hone rfl, hacc]
            rfl
        · exact step _ _ _ _ _ _ h hacc hone

/-- C7: every value returned by the parser satisfies the tuple invariant:
each Tuple at top level or nested anywhere inside it has only Symbol
elements of byte length exactly one — so no successful parse produces a
tuple with a non-symbol or multi-character element (such inputs fail
instead of yielding a tuple). -/
theorem c7_parsed_tuples_single_char_symbols (fuel : Nat) (s rest : List Char)
    (v : Obj) (h : parseObj fuel s = .ok v rest) : TupleWF v = true :=
  (parse_tupleWF fuel).1 s v rest h

/-- C7 witness: the tuple parsed from `( a b )` is made of the
single-character symbols `a` and `b` and satisfies the invariant. -/
theorem c7_parsed_tuples_single_char_symbols_witness :
    parseObj 30 "( a b )".toList =
      .ok (Obj.tuple [Obj.sym ['a'] false, Obj.sym ['b'] false] false) [] ∧
    TupleWF (Obj.tuple [Obj.sym ['a'] false, Obj.sym ['b'] false] false) = true :=
  ⟨rfl, c7_parsed_tuples_single_char_symbols 30 "( a b )".toList []
    (Obj.tuple [Obj.sym ['a'] false, Obj.sym ['b'] false] false) rfl⟩

end Aocla
